import Mathlib

/-!
Verification development for the YouTube ETL pipeline
(`etl/extract.py`, `etl/load.py`, `dags/youtube_etl_dag.py`).

The Python sources are shallowly embedded below:
* `extract.py`'s `extract_videos_for_query` pagination loop is modelled by
  `fetchLoop` / `extract_videos_for_query`.  The remote YouTube API is a
  parameter of the embedding: each iteration of the `while` loop consumes one
  `Attempt` from a script (either an `HttpError`, which the code catches, or a
  page `Response`).  Items returned by the API are opaque to the loop, so the
  embedding is polymorphic in the item type `α`.
* `load.py`'s `load_csv` / `ensure_table` / `run_load` are modelled over an
  explicit destination-table state.  `pandas.to_datetime(..., errors="coerce")`
  is an external library call and is modelled by a parameter
  `p : String → Option String` (`none` = `NaT`).  The PostgreSQL
  `INSERT ... ON CONFLICT (video_id) DO UPDATE` statement emitted by the code is
  embedded according to PostgreSQL's documented semantics, including the
  cardinality-violation error ("ON CONFLICT DO UPDATE command cannot affect row
  a second time") raised when two proposed rows share the conflict key.  The
  non-PostgreSQL branch appends into the table created by `ensure_table`, whose
  DDL declares `video_id TEXT PRIMARY KEY`, so appending a row whose key is
  already present raises a unique-key violation; a raised error aborts the
  `engine.begin()` transaction, leaving the table unchanged.
-/

namespace YoutubeETL

/-! ## Embedding of `etl/extract.py` -/

/-- `DEFAULT_MAX_RESULTS_PER_QUERY: int = 50` (extract.py line 27). -/
def DEFAULT_MAX_RESULTS_PER_QUERY : Int := 50

/-- The fixed cooldown the loop sleeps after an `HttpError`
(`time.sleep(60)`, extract.py line 77), in seconds. -/
def ERROR_COOLDOWN_SECONDS : ℚ := 60

/-- Default value of the `sleep_between_pages` parameter of
`extract_videos_for_query` (extract.py line 53), in seconds. -/
def defaultSleepBetweenPages : ℚ := 1

/-- One page response of the remote API:
`response.get("items", [])` and `response.get("nextPageToken")`. -/
structure Response (α : Type) where
  items : List α
  nextPageToken : Option String
deriving DecidableEq, Inhabited

/-- Outcome of one `request.execute()` call: either an `HttpError`
(caught by the `except` clause) or a page response. -/
inductive Attempt (α : Type) where
  | err : Attempt α
  | ok : Response α → Attempt α
deriving DecidableEq, Inhabited

/-- The request built by `youtube.search().list(...)` (extract.py lines 65-72):
the query, the page token of the previous page and
`maxResults=min(DEFAULT_MAX_RESULTS_PER_QUERY, max_total - len(collected))`. -/
structure Req where
  q : String
  pageToken : Option String
  maxResults : Int
deriving DecidableEq, Inhabited

/-- Python truthiness of `next_page_token` in `if not next_page_token: break`:
`None` and the empty string are falsy. -/
def tokenFalsy : Option String → Bool
  | none => true
  | some s => s == ""

/-- Python truthiness of an optional string (`if not api_key`, `or`). -/
def truthyStr : Option String → Bool
  | none => false
  | some s => !(s == "")

/-- Result of running the `while len(collected) < max_total` loop of
`extract_videos_for_query` against a finite script of request outcomes:
the accumulated `collected` list, the requests issued (in order), the
`time.sleep` calls performed (in seconds, in order), and whether the loop
exited through one of its own termination conditions (`finished = true`) or
merely ran out of scripted outcomes (`finished = false`). -/
structure FetchResult (α : Type) where
  collected : List α
  requests : List Req
  sleeps : List ℚ
  finished : Bool
deriving DecidableEq, Inhabited

/-- The pagination loop of `extract_videos_for_query` (extract.py lines 63-92).
Each iteration first re-checks `len(collected) < max_total`, then performs one
request.  An `HttpError` is caught: the code logs, sleeps 60 seconds and
`continue`s with the same page token and the same accumulated items.  On a
successful response: an empty `items` list breaks the loop; otherwise the items
are appended, the continuation token is taken from the response, a falsy token
breaks the loop, and otherwise the loop sleeps `sleep_between_pages` seconds
and iterates. -/
def fetchLoop (q : String) (maxTotal : Int) (delay : ℚ) :
    List (Attempt α) → Option String → List α → FetchResult α
  | attempts, tok, collected =>
    if (collected.length : Int) < maxTotal then
      match attempts with
      | [] => ⟨collected, [], [], false⟩
      | .err :: rest =>
        let req : Req := ⟨q, tok, min DEFAULT_MAX_RESULTS_PER_QUERY (maxTotal - collected.length)⟩
        let r := fetchLoop q maxTotal delay rest tok collected
        ⟨r.collected, req :: r.requests, ERROR_COOLDOWN_SECONDS :: r.sleeps, r.finished⟩
      | .ok resp :: rest =>
        let req : Req := ⟨q, tok, min DEFAULT_MAX_RESULTS_PER_QUERY (maxTotal - collected.length)⟩
        if resp.items.isEmpty then ⟨collected, [req], [], true⟩
        else if tokenFalsy resp.nextPageToken then ⟨collected ++ resp.items, [req], [], true⟩
        else
          let r := fetchLoop q maxTotal delay rest resp.nextPageToken (collected ++ resp.items)
          ⟨r.collected, req :: r.requests, delay :: r.sleeps, r.finished⟩
    else ⟨collected, [], [], true⟩

/-- Python's `xs[:n]` for an integer `n` (used as `collected[:max_total]`,
extract.py line 94): a negative stop counts from the end, clamped at `0`. -/
def pySliceTo (xs : List α) (n : Int) : List α :=
  if n < 0 then xs.take ((xs.length + n).toNat) else xs.take n.toNat

/-- `extract_videos_for_query(query, max_total, api_key, sleep_between_pages)`
(extract.py lines 49-94).  `apiKey` is the explicit argument, `envKey` models
`os.getenv("YT_API_KEY")`; a falsy resolved key raises `RuntimeError`
(modelled as `Except.error`).  The network is replaced by the `attempts`
script.  Returns the loop result together with the returned value
`collected[:max_total]`. -/
def extract_videos_for_query (apiKey envKey : Option String) (query : String)
    (maxTotal : Int) (delay : ℚ) (attempts : List (Attempt α)) :
    Except String (FetchResult α × List α) :=
  let key := if truthyStr apiKey then apiKey else envKey
  if truthyStr key then
    let r := fetchLoop query maxTotal delay attempts none []
    .ok (r, pySliceTo r.collected maxTotal)
  else
    .error "YouTube API key not set. Provide --api_key or set YT_API_KEY env var."

/-- Script produced by an honest remote server whose whole result set is
`pages.join`: it serves the pages in order and returns a continuation token
with every page except the last.  A server with an empty result set answers
with one empty page and no token. -/
def honestScript : List (List α) → List (Attempt α)
  | [] => [.ok ⟨[], none⟩]
  | [pg] => [.ok ⟨pg, none⟩]
  | pg :: rest => .ok ⟨pg, some "token"⟩ :: honestScript rest

/-! ## Embedding of `etl/load.py` -/

/-- One row of a processed CSV file consumed by `load_csv`
(columns produced by the transform stage; `published_at` is still the raw
string at this point). -/
structure RawRec where
  video_id : String
  title : String
  channel_title : String
  published_at : String
  description : String
  query_tag : String
deriving DecidableEq, Inhabited

/-- A dataframe record after
`df["published_at"] = pd.to_datetime(df["published_at"], errors="coerce")`
(load.py lines 88-89): a value the parser rejects becomes `NaT`, i.e. `none`. -/
structure Rec where
  video_id : String
  title : String
  channel_title : String
  published_at : Option String
  description : String
  query_tag : String
deriving DecidableEq, Inhabited

/-- A row of the destination table `youtube_videos` as created by
`ensure_table` (load.py lines 67-77): the six record columns plus the
`loaded_at TIMESTAMP DEFAULT NOW()` audit column (time modelled as `Nat`). -/
structure Row where
  video_id : String
  title : String
  channel_title : String
  published_at : Option String
  description : String
  query_tag : String
  loaded_at : Nat
deriving DecidableEq, Inhabited

/-- The destination table state, as a list of rows in physical order. -/
abbrev Table := List Row

/-- Errors raised inside the `engine.begin()` block of `load_csv`. -/
inductive MergeErr where
  /-- PostgreSQL: "ON CONFLICT DO UPDATE command cannot affect row a second
  time", raised when two rows proposed for insertion in one statement share
  the constrained `video_id`. -/
  | cardinalityViolation
  /-- Unique-key violation: the plain-append branch inserts into the table
  whose DDL declares `video_id TEXT PRIMARY KEY`. -/
  | uniqueViolation
deriving DecidableEq, Inhabited

/-- `pd.to_datetime(df["published_at"], errors="coerce")` applied to one
record, with the pandas parser abstracted as `p` (`none` = `NaT`). -/
def coerceRec (p : String → Option String) (r : RawRec) : Rec :=
  ⟨r.video_id, r.title, r.channel_title, p r.published_at, r.description, r.query_tag⟩

/-- The timestamp coercion applied to the whole dataframe. -/
def coerceBatch (p : String → Option String) (batch : List RawRec) : List Rec :=
  batch.map (coerceRec p)

/-- `ensure_table` (load.py lines 65-80): `CREATE TABLE IF NOT EXISTS`, i.e.
create an empty table when absent and leave an existing one untouched. -/
def ensure_table (db : Option Table) : Option Table :=
  some (db.getD [])

/-- Whether the table already holds a row with the given `video_id`. -/
def keyPresent (table : Table) (k : String) : Bool :=
  table.any (fun row => row.video_id == k)

/-- The `DO UPDATE SET` clause of the merge statement (load.py lines 102-106):
every non-key column is overwritten with the excluded (incoming) value —
except `loaded_at`, which does not appear in the `SET` list and therefore
keeps its stored value. -/
def updateRow (row : Row) (r : Rec) : Row :=
  { row with
    title := r.title
    channel_title := r.channel_title
    published_at := r.published_at
    description := r.description
    query_tag := r.query_tag }

/-- A freshly inserted row: the `INSERT` column list (load.py line 98) omits
`loaded_at`, so it takes its DDL default `NOW()`, the merge time `now`. -/
def insertRow (now : Nat) (r : Rec) : Row :=
  ⟨r.video_id, r.title, r.channel_title, r.published_at, r.description, r.query_tag, now⟩

/-- Update every stored row whose `video_id` collides with the incoming
record (at most one, under the primary-key invariant). -/
def updateTable (table : Table) (r : Rec) : Table :=
  table.map (fun row => if row.video_id == r.video_id then updateRow row r else row)

/-- The PostgreSQL statement
`INSERT INTO youtube_videos (...) SELECT ... FROM _tmp_youtube_load
ON CONFLICT (video_id) DO UPDATE SET ...` (load.py lines 97-108), embedded by
PostgreSQL's documented semantics: source rows are processed in order;
`touched` is the set of `video_id`s already inserted or updated by this
statement, and a proposed row whose key was already touched raises the
cardinality-violation error. -/
def mergeRows (now : Nat) : List Rec → List String → Table → Except MergeErr Table
  | [], _, table => .ok table
  | r :: rs, touched, table =>
    if r.video_id ∈ touched then .error .cardinalityViolation
    else if keyPresent table r.video_id then
      mergeRows now rs (r.video_id :: touched) (updateTable table r)
    else
      mergeRows now rs (r.video_id :: touched) (table ++ [insertRow now r])

/-- `df.to_sql(TABLE_NAME, conn, if_exists="append")` (load.py line 111):
rows are inserted in order into the table whose DDL declares
`video_id TEXT PRIMARY KEY`, so a row whose key is already present raises a
unique-key violation. -/
def appendRows (now : Nat) : List Rec → Table → Except MergeErr Table
  | [], table => .ok table
  | r :: rs, table =>
    if keyPresent table r.video_id then .error .uniqueViolation
    else appendRows now rs (table ++ [insertRow now r])

/-- `load_csv` (load.py lines 83-113) on an already-read CSV `batch`:
coerce `published_at`, then inside one `engine.begin()` transaction either
run the staged `ON CONFLICT` merge (dialect `"postgresql"`) or plain-append.
An `Except.error` means the statement raised; `engine.begin()` then rolls the
transaction back, so the caller's table state is unchanged. -/
def load_csv (p : String → Option String) (dialect : String) (now : Nat)
    (batch : List RawRec) (table : Table) : Except MergeErr Table :=
  let recs := coerceBatch p batch
  if dialect = "postgresql" then mergeRows now recs [] table
  else appendRows now recs table

/-- The table state after a `load_csv` call at top level: a raised error
aborts the transaction and leaves the previous state. -/
def afterLoad (result : Except MergeErr Table) (previous : Table) : Table :=
  match result with
  | .ok t => t
  | .error _ => previous

/-- Running the Sink Writer twice with the identical batch (the idempotence
scenario of the spec): each run is one `load_csv` call; a run whose
transaction raises leaves the table as it was. -/
def loadTwice (p : String → Option String) (dialect : String) (now1 now2 : Nat)
    (batch : List RawRec) (table : Table) : Table :=
  let t1 := afterLoad (load_csv p dialect now1 batch table) table
  afterLoad (load_csv p dialect now2 batch t1) t1

/-- The keys (`video_id` column) of the table, in row order. -/
def keysOf (table : Table) : List String :=
  table.map (fun row => row.video_id)

/-- The first stored row with the given key, if any. -/
def findRow (table : Table) (k : String) : Option Row :=
  table.find? (fun row => row.video_id == k)

/-- Number of rows holding the given key. -/
def countKey (table : Table) (k : String) : Nat :=
  (table.filter (fun row => row.video_id == k)).length

/-- The `PRIMARY KEY` invariant of `youtube_videos`: at most one row per
`video_id`. -/
def uniqueKeys (table : Table) : Prop :=
  (keysOf table).Nodup

/-! ## Embedding of `run_load` (load.py lines 119-138) -/

/-- Database-touching actions performed by `run_load`, in order. -/
inductive DbAction where
  | connectEngine
  | ensureTableAction
  | loadFile : String → DbAction
deriving DecidableEq, Inhabited

/-- Errors raised by `run_load`. -/
inductive RunErr where
  /-- `RuntimeError("Database URL not provided. ...")` (load.py line 128). -/
  | noDbUrl
  /-- `ValueError("No processed CSV paths received from XCom.")`
  (load.py line 132). -/
  | noPaths
  /-- An error propagated from a `load_csv` transaction. -/
  | merge : MergeErr → RunErr
deriving DecidableEq, Inhabited

/-- Python truthiness of the pulled XCom value in
`if not processed_paths:` — `None` and the empty list are falsy. -/
def pulledFalsy : Option (List String) → Bool
  | none => true
  | some l => l.isEmpty

/-- The `for csv_path in processed_paths: load_csv(...)` loop of `run_load`,
threading the table state; an error from one file stops the run and
propagates.  `readCsv` models `pd.read_csv` for each path. -/
def loadAll (readCsv : String → List RawRec) (p : String → Option String)
    (dialect : String) (now : Nat) :
    List String → Table → List DbAction × Except RunErr Table
  | [], table => ([], .ok table)
  | path :: rest, table =>
    match load_csv p dialect now (readCsv path) table with
    | .ok t2 =>
      let r := loadAll readCsv p dialect now rest t2
      (.loadFile path :: r.1, r.2)
    | .error e => ([.loadFile path], .error (.merge e))

/-- `run_load(**context)` (load.py lines 119-138): resolve `db_url`
(param or `DB_URL` env var; falsy raises `RuntimeError`), pull
`processed_paths` from XCom (falsy raises `ValueError`), then connect,
ensure the table and load every CSV.  The returned list records the
database-touching actions actually performed before the outcome. -/
def run_load (readCsv : String → List RawRec) (p : String → Option String)
    (dialect : String) (now : Nat) (dbUrl : Option String)
    (pulled : Option (List String)) (db : Option Table) :
    List DbAction × Except RunErr Table :=
  if !(truthyStr dbUrl) then ([], .error .noDbUrl)
  else if pulledFalsy pulled then ([], .error .noPaths)
  else
    let table := (ensure_table db).getD []
    let r := loadAll readCsv p dialect now (pulled.getD []) table
    (.connectEngine :: .ensureTableAction :: r.1, r.2)

/-! ## Destination-table lemmas -/

theorem keysOf_append (t1 t2 : Table) : keysOf (t1 ++ t2) = keysOf t1 ++ keysOf t2 := by
  simp [keysOf]

theorem mem_keysOf_iff (t : Table) (k : String) :
    k ∈ keysOf t ↔ ∃ row ∈ t, row.video_id = k := by
  simp [keysOf]

theorem keyPresent_iff (t : Table) (k : String) : keyPresent t k = true ↔ k ∈ keysOf t := by
  rw [mem_keysOf_iff]
  simp [keyPresent, List.any_eq_true]

theorem findRow_cons (row : Row) (t : Table) (k : String) :
    findRow (row :: t) k = if row.video_id = k then some row else findRow t k := by
  by_cases h : row.video_id = k
  · simp [findRow, List.find?_cons_of_pos, h]
  · simp [findRow, List.find?_cons_of_neg, h]

theorem findRow_eq_none_iff (t : Table) (k : String) :
    findRow t k = none ↔ k ∉ keysOf t := by
  rw [mem_keysOf_iff, findRow, List.find?_eq_none]
  simp

theorem findRow_isSome_iff (t : Table) (k : String) :
    (findRow t k).isSome = true ↔ k ∈ keysOf t := by
  rw [mem_keysOf_iff, findRow, List.find?_isSome]
  simp

theorem countKey_cons (row : Row) (t : Table) (k : String) :
    countKey (row :: t) k = (if row.video_id = k then 1 else 0) + countKey t k := by
  by_cases h : row.video_id = k <;> simp [countKey, List.filter_cons, h, Nat.add_comm]

theorem countKey_eq_zero_of_not_mem (t : Table) (k : String) (h : k ∉ keysOf t) :
    countKey t k = 0 := by
  induction t with
  | nil => rfl
  | cons row rest ih =>
    rw [countKey_cons]
    simp only [keysOf, List.map_cons, List.mem_cons] at h
    push_neg at h
    rw [if_neg (fun hh => h.1 hh.symm)]
    simpa [keysOf] using ih (by simpa [keysOf] using h.2)

theorem countKey_of_uniqueKeys (t : Table) (k : String) (h : uniqueKeys t) :
    countKey t k = if k ∈ keysOf t then 1 else 0 := by
  induction t with
  | nil => rfl
  | cons row rest ih =>
    rw [countKey_cons]
    simp only [uniqueKeys, keysOf, List.map_cons, List.nodup_cons] at h
    by_cases hk : row.video_id = k
    · subst hk
      rw [countKey_eq_zero_of_not_mem rest _ (by simpa [keysOf] using h.1)]
      simp [keysOf]
    · rw [if_neg hk, ih h.2]
      have hmem : k ∈ keysOf (row :: rest) ↔ k ∈ keysOf rest := by
        simp only [keysOf, List.map_cons, List.mem_cons]
        constructor
        · rintro (h1 | h1)
          · exact absurd h1.symm hk
          · exact h1
        · exact Or.inr
      rw [if_congr hmem rfl rfl]
      simp

theorem updateRow_video_id (row : Row) (r : Rec) :
    (updateRow row r).video_id = row.video_id := rfl

theorem insertRow_video_id (now : Nat) (r : Rec) :
    (insertRow now r).video_id = r.video_id := rfl

theorem findRow_updateTable_ne (t : Table) (r : Rec) (k : String) (h : k ≠ r.video_id) :
    findRow (updateTable t r) k = findRow t k := by
  induction t with
  | nil => rfl
  | cons row rest ih =>
    simp only [updateTable, List.map_cons]
    by_cases hc : row.video_id = r.video_id
    · rw [if_pos (by simp [hc]), findRow_cons, findRow_cons, updateRow_video_id]
      have hk : row.video_id ≠ k := fun hh => h (hh.symm.trans hc)
      rw [if_neg hk, if_neg hk]
      exact ih
    · rw [if_neg (by simp [hc]), findRow_cons, findRow_cons]
      by_cases hk : row.video_id = k
      · rw [if_pos hk, if_pos hk]
      · rw [if_neg hk, if_neg hk]
        exact ih

theorem findRow_updateTable_self (t : Table) (r : Rec) (old : Row)
    (h : findRow t r.video_id = some old) :
    findRow (updateTable t r) r.video_id = some (updateRow old r) := by
  induction t with
  | nil => simp [findRow] at h
  | cons row rest ih =>
    simp only [updateTable, List.map_cons]
    rw [findRow_cons] at h
    by_cases hc : row.video_id = r.video_id
    · rw [if_pos hc] at h
      rw [if_pos (by simp [hc]), findRow_cons, updateRow_video_id, if_pos hc]
      rw [Option.some_inj] at h
      rw [h]
    · rw [if_neg hc] at h
      rw [if_neg (by simp [hc]), findRow_cons, if_neg hc]
      exact ih h

theorem findRow_append_ne (t : Table) (row : Row) (k : String) (h : k ≠ row.video_id) :
    findRow (t ++ [row]) k = findRow t k := by
  induction t with
  | nil =>
    simp only [List.nil_append]
    rw [findRow_cons, if_neg (fun hh => h hh.symm)]
  | cons row2 rest ih =>
    simp only [List.cons_append]
    rw [findRow_cons, findRow_cons]
    by_cases hk : row2.video_id = k
    · rw [if_pos hk, if_pos hk]
    · rw [if_neg hk, if_neg hk]
      exact ih

theorem findRow_append_self (t : Table) (row : Row)
    (h : findRow t row.video_id = none) :
    findRow (t ++ [row]) row.video_id = some row := by
  induction t with
  | nil =>
    simp only [List.nil_append]
    rw [findRow_cons, if_pos rfl]
  | cons row2 rest ih =>
    rw [findRow_cons] at h
    simp only [List.cons_append]
    rw [findRow_cons]
    by_cases hk : row2.video_id = row.video_id
    · rw [if_pos hk] at h
      exact absurd h (by simp)
    · rw [if_neg hk] at h
      rw [if_neg hk]
      exact ih h

theorem keysOf_updateTable (t : Table) (r : Rec) :
    keysOf (updateTable t r) = keysOf t := by
  induction t with
  | nil => rfl
  | cons row rest ih =>
    simp only [updateTable, List.map_cons, keysOf] at ih ⊢
    by_cases h : row.video_id = r.video_id
    · rw [if_pos (by simp [h]), updateRow_video_id, ih]
    · rw [if_neg (by simp [h]), ih]

theorem keyPresent_updateTable (t : Table) (r : Rec) (k : String) :
    keyPresent (updateTable t r) k = keyPresent t k := by
  have h1 := keyPresent_iff (updateTable t r) k
  have h2 := keyPresent_iff t k
  rw [keysOf_updateTable] at h1
  cases hb : keyPresent t k
  · cases hb2 : keyPresent (updateTable t r) k
    · rfl
    · exact absurd (h2.2 (h1.1 hb2)) (by simp [hb])
  · exact h1.2 (h2.1 hb)

theorem keyPresent_append_ne (t : Table) (row : Row) (k : String) (h : k ≠ row.video_id) :
    keyPresent (t ++ [row]) k = keyPresent t k := by
  rw [keyPresent, List.any_append]
  have : ([row].any fun rw2 => rw2.video_id == k) = false := by
    simp [List.any]
    exact fun hh => h hh.symm
  rw [this, Bool.or_false]
  rfl

/-- Characterization of the PostgreSQL `ON CONFLICT (video_id) DO UPDATE`
merge on a batch with pairwise-distinct keys, against a uniquely-keyed table:
the merge succeeds; existing keys are overwritten (keeping `loaded_at`),
absent keys are inserted with `loaded_at = now`, all other rows are untouched,
and the table grows by the number of newly-inserted keys. -/
theorem mergeRows_spec (now : Nat) (recs : List Rec) :
    ∀ (touched : List String) (table : Table),
    (recs.map (fun r => r.video_id)).Nodup →
    (∀ r ∈ recs, r.video_id ∉ touched) →
    uniqueKeys table →
    ∃ t', mergeRows now recs touched table = .ok t' ∧ uniqueKeys t' ∧
      (∀ r ∈ recs,
        (findRow table r.video_id = none → findRow t' r.video_id = some (insertRow now r)) ∧
        (∀ old, findRow table r.video_id = some old →
          findRow t' r.video_id = some (updateRow old r))) ∧
      (∀ k, k ∉ recs.map (fun r => r.video_id) → findRow t' k = findRow table k) ∧
      t'.length = table.length + recs.countP (fun r => !(keyPresent table r.video_id)) := by
  induction recs with
  | nil =>
    intro touched table h1 h2 h3
    exact ⟨table, rfl, h3, by simp, by simp [mergeRows], by simp⟩
  | cons r rs ih =>
    intro touched table h1 h2 h3
    simp only [List.map_cons, List.nodup_cons] at h1
    have hr_nt : r.video_id ∉ touched := h2 r (List.mem_cons_self r rs)
    have h2' : ∀ x ∈ rs, x.video_id ∉ r.video_id :: touched := by
      intro x hx
      simp only [List.mem_cons]
      push_neg
      refine ⟨?_, h2 x (List.mem_cons_of_mem _ hx)⟩
      intro he
      have hmm : x.video_id ∈ rs.map (fun r => r.video_id) := List.mem_map_of_mem _ hx
      rw [he] at hmm
      exact h1.1 hmm
    have hxne : ∀ x ∈ rs, x.video_id ≠ r.video_id := by
      intro x hx he
      have hmm : x.video_id ∈ rs.map (fun r => r.video_id) := List.mem_map_of_mem _ hx
      rw [he] at hmm
      exact h1.1 hmm
    by_cases hp : keyPresent table r.video_id = true
    · -- key already present: conflict-update branch
      obtain ⟨old, hold⟩ : ∃ old, findRow table r.video_id = some old :=
        Option.isSome_iff_exists.1 ((findRow_isSome_iff table r.video_id).2
          ((keyPresent_iff _ _).1 hp))
      have hstep : mergeRows now (r :: rs) touched table
          = mergeRows now rs (r.video_id :: touched) (updateTable table r) := by
        simp only [mergeRows]
        rw [if_neg hr_nt, if_pos hp]
      have h3' : uniqueKeys (updateTable table r) := by
        rw [uniqueKeys, keysOf_updateTable]; exact h3
      obtain ⟨t', hok, hu, hfind, hother, hlen⟩ :=
        ih (r.video_id :: touched) (updateTable table r) h1.2 h2' h3'
      refine ⟨t', hstep ▸ hok, hu, ?_, ?_, ?_⟩
      · intro x hx
        rcases List.mem_cons.1 hx with hx | hx
        · subst hx
        -- hmm careful: hx : x = r
          constructor
          · intro hnone
            exact absurd (hold.symm.trans hnone) (by simp)
          · intro old2 hold2
            have he : old2 = old := by
              have := hold.symm.trans hold2
              exact (Option.some_inj.1 this).symm
            subst he
            rw [hother x.video_id h1.1]
            exact findRow_updateTable_self table x old2 hold
        · have hne := hxne x hx
          have htr : findRow (updateTable table r) x.video_id = findRow table x.video_id :=
            findRow_updateTable_ne table r x.video_id hne
          have hfx := hfind x hx
          rw [htr] at hfx
          exact hfx
      · intro k hk
        simp only [List.map_cons, List.mem_cons] at hk
        push_neg at hk
        rw [hother k hk.2]
        exact findRow_updateTable_ne table r k hk.1
      · rw [hlen]
        have hl1 : (updateTable table r).length = table.length := by
          simp [updateTable]
        have hl2 : rs.countP (fun x => !(keyPresent (updateTable table r) x.video_id))
            = rs.countP (fun x => !(keyPresent table x.video_id)) :=
          List.countP_congr (fun x _ => by rw [keyPresent_updateTable])
        rw [hl1, hl2, List.countP_cons]
        simp [hp]
    · -- key absent: plain insert branch
      have hnotmem : r.video_id ∉ keysOf table := fun hm => hp ((keyPresent_iff _ _).2 hm)
      have hnone : findRow table r.video_id = none := (findRow_eq_none_iff _ _).2 hnotmem
      have hstep : mergeRows now (r :: rs) touched table
          = mergeRows now rs (r.video_id :: touched) (table ++ [insertRow now r]) := by
        simp only [mergeRows]
        rw [if_neg hr_nt, if_neg hp]
      have h3' : uniqueKeys (table ++ [insertRow now r]) := by
        rw [uniqueKeys, keysOf_append]
        have : keysOf [insertRow now r] = [r.video_id] := rfl
        rw [this]
        simp [List.nodup_append]
        exact ⟨h3, hnotmem⟩
      obtain ⟨t', hok, hu, hfind, hother, hlen⟩ :=
        ih (r.video_id :: touched) (table ++ [insertRow now r]) h1.2 h2' h3'
      refine ⟨t', hstep ▸ hok, hu, ?_, ?_, ?_⟩
      · intro x hx
        rcases List.mem_cons.1 hx with hx | hx
        · subst hx
          constructor
          · intro _
            rw [hother x.video_id h1.1]
            have := findRow_append_self table (insertRow now x)
              (by rw [insertRow_video_id]; exact hnone)
            rw [insertRow_video_id] at this
            exact this
          · intro old2 hold2
            exact absurd (hnone.symm.trans hold2) (by simp)
        · have hne := hxne x hx
          have htr : findRow (table ++ [insertRow now r]) x.video_id = findRow table x.video_id :=
            findRow_append_ne table (insertRow now r) x.video_id
              (by rw [insertRow_video_id]; exact hne)
          have hfx := hfind x hx
          rw [htr] at hfx
          exact hfx
      · intro k hk
        simp only [List.map_cons, List.mem_cons] at hk
        push_neg at hk
        rw [hother k hk.2]
        exact findRow_append_ne table (insertRow now r) k
          (by rw [insertRow_video_id]; exact hk.1)
      · rw [hlen]
        have hl1 : (table ++ [insertRow now r]).length = table.length + 1 := by
          simp
        have hl2 : rs.countP (fun x => !(keyPresent (table ++ [insertRow now r]) x.video_id))
            = rs.countP (fun x => !(keyPresent table x.video_id)) :=
          List.countP_congr (fun x hx => by
            rw [keyPresent_append_ne table (insertRow now r) x.video_id
              (by rw [insertRow_video_id]; exact hxne x hx)])
        rw [hl1, hl2, List.countP_cons]
        have : (!(keyPresent table r.video_id)) = true := by
          simp [Bool.not_eq_true'] at hp ⊢
          exact hp
        rw [this]
        simp
        omega

/-- Success characterization of the plain-append branch: when the batch keys
are pairwise distinct and none is already stored, every row is inserted at
the end, with `loaded_at = now`. -/
theorem appendRows_ok (now : Nat) (recs : List Rec) :
    ∀ table : Table,
    (recs.map (fun r => r.video_id)).Nodup →
    (∀ r ∈ recs, r.video_id ∉ keysOf table) →
    appendRows now recs table = .ok (table ++ recs.map (insertRow now)) := by
  induction recs with
  | nil => intro table _ _; simp [appendRows]
  | cons r rs ih =>
    intro table h1 h2
    simp only [List.map_cons, List.nodup_cons] at h1
    have hr : r.video_id ∉ keysOf table := h2 r (List.mem_cons_self r rs)
    have hp : ¬ (keyPresent table r.video_id = true) := fun hh => hr ((keyPresent_iff _ _).1 hh)
    have hstep : appendRows now (r :: rs) table
        = appendRows now rs (table ++ [insertRow now r]) := by
      simp only [appendRows]
      rw [if_neg hp]
    rw [hstep, ih (table ++ [insertRow now r]) h1.2 ?_]
    · simp
    · intro x hx
      rw [keysOf_append]
      simp only [List.mem_append]
      push_neg
      refine ⟨h2 x (List.mem_cons_of_mem _ hx), ?_⟩
      have : keysOf [insertRow now r] = [r.video_id] := rfl
      rw [this]
      simp only [List.mem_singleton]
      intro he
      have hmm : x.video_id ∈ rs.map (fun r => r.video_id) := List.mem_map_of_mem _ hx
      rw [he] at hmm
      exact h1.1 hmm

/-- If the plain append succeeded, the batch keys were pairwise distinct and
none of them was already stored. -/
theorem appendRows_ok_implies (now : Nat) (recs : List Rec) :
    ∀ (table : Table) (t' : Table),
    appendRows now recs table = .ok t' →
    (recs.map (fun r => r.video_id)).Nodup ∧ (∀ r ∈ recs, r.video_id ∉ keysOf table) := by
  induction recs with
  | nil => intro table t' _; simp
  | cons r rs ih =>
    intro table t' h
    simp only [appendRows] at h
    by_cases hp : keyPresent table r.video_id = true
    · rw [if_pos hp] at h
      exact absurd h (by simp)
    · rw [if_neg hp] at h
      obtain ⟨hnd, hmem⟩ := ih (table ++ [insertRow now r]) t' h
      have hr : r.video_id ∉ keysOf table := fun hm => hp ((keyPresent_iff _ _).2 hm)
      have hxne : ∀ x ∈ rs, x.video_id ≠ r.video_id := by
        intro x hx he
        have := hmem x hx
        rw [keysOf_append] at this
        simp only [List.mem_append] at this
        push_neg at this
        have h2 := this.2
        have hkeys : keysOf [insertRow now r] = [r.video_id] := rfl
        rw [hkeys] at h2
        simp only [List.mem_singleton] at h2
        exact h2 he
      constructor
      · simp only [List.map_cons, List.nodup_cons]
        refine ⟨?_, hnd⟩
        intro hmm
        obtain ⟨x, hx, he⟩ := List.mem_map.1 hmm
        exact hxne x hx he
      · intro x hx
        rcases List.mem_cons.1 hx with hx | hx
        · subst hx; exact hr
        · intro hm
          have := hmem x hx
          rw [keysOf_append] at this
          simp only [List.mem_append] at this
          push_neg at this
          exact this.1 hm

/-- If the `ON CONFLICT DO UPDATE` merge succeeded, the batch keys were
pairwise distinct (and disjoint from the already-touched set): PostgreSQL
raises the cardinality violation otherwise. -/
theorem mergeRows_ok_implies (now : Nat) (recs : List Rec) :
    ∀ (touched : List String) (table : Table) (t' : Table),
    mergeRows now recs touched table = .ok t' →
    (recs.map (fun r => r.video_id)).Nodup ∧ ∀ r ∈ recs, r.video_id ∉ touched := by
  induction recs with
  | nil => intro touched table t' _; simp
  | cons r rs ih =>
    intro touched table t' h
    simp only [mergeRows] at h
    by_cases ht : r.video_id ∈ touched
    · rw [if_pos ht] at h
      exact absurd h (by simp)
    · rw [if_neg ht] at h
      have hnext : ∃ table2, mergeRows now rs (r.video_id :: touched) table2 = .ok t' := by
        by_cases hp : keyPresent table r.video_id = true
        · rw [if_pos hp] at h; exact ⟨_, h⟩
        · rw [if_neg hp] at h; exact ⟨_, h⟩
      obtain ⟨table2, h2⟩ := hnext
      obtain ⟨hnd, hmem⟩ := ih (r.video_id :: touched) table2 t' h2
      have hxne : ∀ x ∈ rs, x.video_id ≠ r.video_id := by
        intro x hx he
        have := hmem x hx
        simp only [List.mem_cons] at this
        push_neg at this
        exact this.1 he
      constructor
      · simp only [List.map_cons, List.nodup_cons]
        refine ⟨?_, hnd⟩
        intro hmm
        obtain ⟨x, hx, he⟩ := List.mem_map.1 hmm
        exact hxne x hx he
      · intro x hx
        rcases List.mem_cons.1 hx with hx | hx
        · subst hx; exact ht
        · have := hmem x hx
          simp only [List.mem_cons] at this
          push_neg at this
          exact this.2

/-- A batch with a duplicated `video_id` always makes `load_csv` raise:
PostgreSQL rejects the `ON CONFLICT DO UPDATE` statement with a cardinality
violation, and every other dialect's plain append violates the `PRIMARY KEY`
of `youtube_videos`. -/
theorem load_csv_error_of_dup (p : String → Option String) (dialect : String)
    (now : Nat) (batch : List RawRec) (table : Table)
    (h : ¬ (batch.map (fun r => r.video_id)).Nodup) :
    ∃ e, load_csv p dialect now batch table = .error e := by
  have hkeys : (coerceBatch p batch).map (fun r => r.video_id)
      = batch.map (fun r => r.video_id) := by
    simp [coerceBatch, coerceRec, List.map_map]
  rw [load_csv]
  by_cases hd : dialect = "postgresql"
  · rw [if_pos hd]
    cases hres : mergeRows now (coerceBatch p batch) [] table with
    | ok t' =>
      have := (mergeRows_ok_implies now (coerceBatch p batch) [] table t' hres).1
      rw [hkeys] at this
      exact absurd this h
    | error e => exact ⟨e, rfl⟩
  · rw [if_neg hd]
    cases hres : appendRows now (coerceBatch p batch) table with
    | ok t' =>
      have := (appendRows_ok_implies now (coerceBatch p batch) table t' hres).1
      rw [hkeys] at this
      exact absurd this h
    | error e => exact ⟨e, rfl⟩

/-- Two records sharing a key means the key list is not `Nodup`. -/
theorem not_nodup_of_two_filter (batch : List RawRec) (k : String)
    (h : 2 ≤ (batch.filter (fun r => r.video_id == k)).length) :
    ¬ (batch.map (fun r => r.video_id)).Nodup := by
  intro hnd
  induction batch with
  | nil => simp at h
  | cons r rs ih =>
    simp only [List.map_cons, List.nodup_cons] at hnd
    by_cases hk : r.video_id = k
    · rw [List.filter_cons, if_pos (by simp [hk])] at h
      simp only [List.length_cons] at h
      have h1 : 1 ≤ (rs.filter (fun r => r.video_id == k)).length := by omega
      obtain ⟨x, hx⟩ := List.exists_mem_of_length_pos (by omega :
        0 < (rs.filter (fun r => r.video_id == k)).length)
      have hx2 := List.mem_filter.1 hx
      have : x.video_id = k := by simpa using hx2.2
      have hmm : x.video_id ∈ rs.map (fun r => r.video_id) := List.mem_map_of_mem _ hx2.1
      rw [this, ← hk] at hmm
      exact hnd.1 hmm
    · rw [List.filter_cons, if_neg (by simp [hk])] at h
      exact ih h hnd.2

/-! ## Sink Writer claims -/

theorem countKey_eq_indicator (t : Table) (keys : List String) (hu : uniqueKeys t)
    (hiff : ∀ k, k ∈ keysOf t ↔ k ∈ keys) :
    ∀ k, countKey t k = if k ∈ keys then 1 else 0 := by
  intro k
  rw [countKey_of_uniqueKeys t k hu, if_congr (hiff k) rfl rfl]

theorem mergeResult_mem_iff (now : Nat) (recs : List Rec) (table t' : Table)
    (hfind : ∀ r ∈ recs,
        (findRow table r.video_id = none → findRow t' r.video_id = some (insertRow now r)) ∧
        (∀ old, findRow table r.video_id = some old →
          findRow t' r.video_id = some (updateRow old r)))
    (hother : ∀ k, k ∉ recs.map (fun r => r.video_id) → findRow t' k = findRow table k) :
    ∀ k, k ∈ keysOf t' ↔ (k ∈ recs.map (fun r => r.video_id) ∨ k ∈ keysOf table) := by
  have hsome : ∀ r ∈ recs, (findRow t' r.video_id).isSome = true := by
    intro r hr
    cases hft : findRow table r.video_id with
    | none => rw [(hfind r hr).1 hft]; rfl
    | some old => rw [(hfind r hr).2 old hft]; rfl
  intro k
  constructor
  · intro hk
    by_cases hm : k ∈ recs.map (fun r => r.video_id)
    · exact Or.inl hm
    · right
      have hs := (findRow_isSome_iff t' k).2 hk
      rw [hother k hm] at hs
      exact (findRow_isSome_iff table k).1 hs
  · intro hk
    by_cases hm : k ∈ recs.map (fun r => r.video_id)
    · obtain ⟨r, hr, he⟩ := List.mem_map.1 hm
      subst he
      exact (findRow_isSome_iff t' r.video_id).1 (hsome r hr)
    · rcases hk with hk | hk
      · exact absurd hk hm
      · apply (findRow_isSome_iff t' k).1
        rw [hother k hm]
        exact (findRow_isSome_iff table k).2 hk

theorem coerceBatch_keys (p : String → Option String) (batch : List RawRec) :
    (coerceBatch p batch).map (fun r => r.video_id) = batch.map (fun r => r.video_id) := by
  simp [coerceBatch, coerceRec, List.map_map]

theorem keysOf_map_insert (now : Nat) (recs : List Rec) :
    keysOf (recs.map (insertRow now)) = recs.map (fun r => r.video_id) := by
  simp [keysOf, List.map_map, insertRow]

theorem findRow_map_insert (now : Nat) (recs : List Rec) (x : Rec)
    (hnd : (recs.map (fun r => r.video_id)).Nodup) (hx : x ∈ recs) :
    findRow (recs.map (insertRow now)) x.video_id = some (insertRow now x) := by
  induction recs with
  | nil => cases hx
  | cons r rs ih =>
    simp only [List.map_cons, List.nodup_cons] at hnd
    rw [List.map_cons, findRow_cons, insertRow_video_id]
    rcases List.mem_cons.1 hx with hx | hx
    · subst hx
      rw [if_pos rfl]
    · have hne : r.video_id ≠ x.video_id := by
        intro he
        have hmm : x.video_id ∈ rs.map (fun r => r.video_id) := List.mem_map_of_mem _ hx
        rw [← he] at hmm
        exact hnd.1 hmm
      rw [if_neg hne]
      exact ih hnd.2 hx

/-- C1 counterexample: the claim quantifies over *every* batch; a batch
holding two records with the same `video_id` (as pagination duplication can
produce) makes the PostgreSQL merge raise on both runs, so the table ends
with zero rows for that key, not one. -/
theorem upsert_idempotent_counterexample :
    countKey (loadTwice (fun _ => none) "postgresql" 0 1
      [⟨"v", "A", "c", "ts", "d", "q"⟩, ⟨"v", "B", "c", "ts", "d", "q"⟩] []) "v" ≠ 1 := by
  decide

/-- C1 (amended): for a batch with pairwise-distinct `video_id`s, loading it
twice starting from an empty table leaves exactly one row per distinct
`video_id`, for any destination dialect accepted by `load_csv`. -/
theorem upsert_idempotent (p : String → Option String) (dialect : String)
    (now1 now2 : Nat) (batch : List RawRec)
    (h : (batch.map (fun r => r.video_id)).Nodup) :
    ∀ k, countKey (loadTwice p dialect now1 now2 batch []) k
      = if k ∈ batch.map (fun r => r.video_id) then 1 else 0 := by
  have hkeys := coerceBatch_keys p batch
  have hnd : ((coerceBatch p batch).map (fun r => r.video_id)).Nodup := by
    rw [hkeys]; exact h
  by_cases hd : dialect = "postgresql"
  · obtain ⟨t1, hok1, hu1, hfind1, hother1, _⟩ :=
      mergeRows_spec now1 (coerceBatch p batch) [] [] hnd (by simp)
        (by simp [uniqueKeys, keysOf])
    obtain ⟨t2, hok2, hu2, hfind2, hother2, _⟩ :=
      mergeRows_spec now2 (coerceBatch p batch) [] t1 hnd (by simp) hu1
    have hiff1 := mergeResult_mem_iff now1 (coerceBatch p batch) [] t1 hfind1 hother1
    have hiff2 := mergeResult_mem_iff now2 (coerceBatch p batch) t1 t2 hfind2 hother2
    have hload1 : load_csv p dialect now1 batch [] = .ok t1 := by
      rw [load_csv, if_pos hd]; exact hok1
    have hload2 : load_csv p dialect now2 batch t1 = .ok t2 := by
      rw [load_csv, if_pos hd]; exact hok2
    have hfin : loadTwice p dialect now1 now2 batch [] = t2 := by
      rw [loadTwice, hload1]
      simp only [afterLoad]
      rw [hload2]
    rw [hfin]
    apply countKey_eq_indicator t2 _ hu2
    intro k
    rw [hiff2 k, hiff1 k, hkeys]
    simp [keysOf]
  · have happ1 : appendRows now1 (coerceBatch p batch) []
        = .ok ([] ++ (coerceBatch p batch).map (insertRow now1)) :=
      appendRows_ok now1 (coerceBatch p batch) [] hnd (by simp [keysOf])
    have hload1 : load_csv p dialect now1 batch []
        = .ok ((coerceBatch p batch).map (insertRow now1)) := by
      rw [load_csv, if_neg hd]
      simpa using happ1
    have hu1 : uniqueKeys ((coerceBatch p batch).map (insertRow now1)) := by
      rw [uniqueKeys, keysOf_map_insert]
      exact hnd
    have hcnt : ∀ k, countKey ((coerceBatch p batch).map (insertRow now1)) k
        = if k ∈ batch.map (fun r => r.video_id) then 1 else 0 := by
      apply countKey_eq_indicator _ _ hu1
      intro k
      rw [keysOf_map_insert, hkeys]
    cases hb : coerceBatch p batch with
    | nil =>
      have hload2 : load_csv p dialect now2 batch ((coerceBatch p batch).map (insertRow now1))
          = .ok ((coerceBatch p batch).map (insertRow now1)) := by
        rw [load_csv, if_neg hd, hb]
        simp [appendRows, hb]
      have hfin : loadTwice p dialect now1 now2 batch []
          = (coerceBatch p batch).map (insertRow now1) := by
        rw [loadTwice, hload1]
        simp only [afterLoad]
        rw [hload2]
      rw [hfin]
      exact hcnt
    | cons r rs =>
      have hpres : keyPresent ((coerceBatch p batch).map (insertRow now1)) r.video_id = true := by
        apply (keyPresent_iff _ _).2
        rw [keysOf_map_insert, hb]
        exact List.mem_cons_self _ _
      have hload2 : load_csv p dialect now2 batch ((coerceBatch p batch).map (insertRow now1))
          = .error .uniqueViolation := by
        rw [load_csv, if_neg hd, hb]
        simp only [appendRows]
        rw [hb] at hpres
        rw [if_pos hpres]
      have hfin : loadTwice p dialect now1 now2 batch []
          = (coerceBatch p batch).map (insertRow now1) := by
        rw [loadTwice, hload1]
        simp only [afterLoad]
        rw [hload2]
      rw [hfin]
      exact hcnt

/-- C1 witness. -/
theorem upsert_idempotent_witness :
    (([⟨"v1", "A", "c", "ts", "d", "q"⟩, ⟨"v2", "B", "c", "ts", "d", "q"⟩] :
      List RawRec).map (fun r => r.video_id)).Nodup ∧
    countKey (loadTwice (fun _ => none) "postgresql" 0 1
      [⟨"v1", "A", "c", "ts", "d", "q"⟩, ⟨"v2", "B", "c", "ts", "d", "q"⟩] []) "v1"
      = if "v1" ∈ (([⟨"v1", "A", "c", "ts", "d", "q"⟩, ⟨"v2", "B", "c", "ts", "d", "q"⟩] :
          List RawRec).map (fun r => r.video_id)) then 1 else 0 :=
  ⟨by decide, upsert_idempotent (fun _ => none) "postgresql" 0 1 _ (by decide) "v1"⟩

/-- C2 counterexample: merging a changed record for an existing `video_id`
does not refresh the stored row's `loaded_at` — the `DO UPDATE SET` clause of
load.py lines 102-106 omits `loaded_at`, so it keeps its old value (here `0`)
instead of the merge time (`5`). -/
theorem merge_refreshes_loaded_at_counterexample :
    ¬ ∃ t' row, load_csv (fun _ => some "TS") "postgresql" 5
        [⟨"v", "B", "c", "raw", "d", "q"⟩] [⟨"v", "A", "c", none, "d", "q", 0⟩]
        = Except.ok t' ∧
      findRow t' "v" = some row ∧ row.loaded_at = 5 := by
  rintro ⟨t', row, h1, h2, h3⟩
  have hx : load_csv (fun _ => some "TS") "postgresql" 5
      [⟨"v", "B", "c", "raw", "d", "q"⟩] [⟨"v", "A", "c", none, "d", "q", 0⟩]
      = Except.ok [⟨"v", "B", "c", some "TS", "d", "q", 0⟩] := rfl
  rw [hx] at h1
  injection h1 with h1
  subst h1
  have hr : findRow [(⟨"v", "B", "c", some "TS", "d", "q", 0⟩ : Row)] "v"
      = some ⟨"v", "B", "c", some "TS", "d", "q", 0⟩ := rfl
  rw [hr] at h2
  injection h2 with h2
  rw [← h2] at h3
  exact absurd h3 (by decide)

/-- C2 (amended): the PostgreSQL merge of a distinct-key batch into a
uniquely-keyed table succeeds; for each incoming record whose key exists, all
non-key columns except `loaded_at` are overwritten with the incoming values
and `loaded_at` keeps its previous value; an absent key is inserted with
`loaded_at` set to the merge time; rows whose keys are not in the batch are
unchanged. -/
theorem load_csv_upsert_semantics (p : String → Option String) (now : Nat)
    (batch : List RawRec) (table : Table)
    (h1 : (batch.map (fun r => r.video_id)).Nodup) (h2 : uniqueKeys table) :
    ∃ t', load_csv p "postgresql" now batch table = Except.ok t' ∧
      (∀ rr ∈ batch, ∃ row, findRow t' rr.video_id = some row ∧
        row.title = rr.title ∧ row.channel_title = rr.channel_title ∧
        row.published_at = p rr.published_at ∧ row.description = rr.description ∧
        row.query_tag = rr.query_tag ∧
        (findRow table rr.video_id = none → row.loaded_at = now) ∧
        (∀ old, findRow table rr.video_id = some old → row.loaded_at = old.loaded_at)) ∧
      (∀ k, k ∉ batch.map (fun r => r.video_id) → findRow t' k = findRow table k) := by
  have hkeys := coerceBatch_keys p batch
  have hnd : ((coerceBatch p batch).map (fun r => r.video_id)).Nodup := by
    rw [hkeys]; exact h1
  obtain ⟨t', hok, hu, hfind, hother, _⟩ :=
    mergeRows_spec now (coerceBatch p batch) [] table hnd (by simp) h2
  refine ⟨t', by rw [load_csv, if_pos rfl]; exact hok, ?_, ?_⟩
  · intro rr hrr
    have hmem : coerceRec p rr ∈ coerceBatch p batch := List.mem_map_of_mem _ hrr
    have hx := hfind (coerceRec p rr) hmem
    cases hft : findRow table rr.video_id with
    | none =>
      refine ⟨insertRow now (coerceRec p rr), hx.1 hft, rfl, rfl, rfl, rfl, rfl, ?_, ?_⟩
      · intro _; rfl
      · intro old hold
        exact absurd hold (by simp)
    | some old =>
      refine ⟨updateRow old (coerceRec p rr), hx.2 old hft, rfl, rfl, rfl, rfl, rfl, ?_, ?_⟩
      · intro hnone
        exact absurd hnone (by simp)
      · intro old2 hold2
        have he : old2 = old := by
          injection hold2 with hh
          exact hh.symm
        rw [he]
        rfl
  · intro k hk
    apply hother
    rw [hkeys]
    exact hk

/-- C2 witness. -/
theorem load_csv_upsert_semantics_witness :
    (([⟨"v", "B", "c", "raw", "d", "q"⟩] : List RawRec).map (fun r => r.video_id)).Nodup ∧
    uniqueKeys [⟨"v", "A", "c", none, "d", "q", 0⟩] ∧
    ∃ t', load_csv (fun _ => some "TS") "postgresql" 5
        [⟨"v", "B", "c", "raw", "d", "q"⟩] [⟨"v", "A", "c", none, "d", "q", 0⟩]
        = Except.ok t' ∧
      (∀ rr ∈ ([⟨"v", "B", "c", "raw", "d", "q"⟩] : List RawRec), ∃ row,
        findRow t' rr.video_id = some row ∧
        row.title = rr.title ∧ row.channel_title = rr.channel_title ∧
        row.published_at = (fun _ => some "TS") rr.published_at ∧
        row.description = rr.description ∧ row.query_tag = rr.query_tag ∧
        (findRow [⟨"v", "A", "c", none, "d", "q", 0⟩] rr.video_id = none →
          row.loaded_at = 5) ∧
        (∀ old, findRow [⟨"v", "A", "c", none, "d", "q", 0⟩] rr.video_id = some old →
          row.loaded_at = old.loaded_at)) ∧
      (∀ k, k ∉ ([⟨"v", "B", "c", "raw", "d", "q"⟩] : List RawRec).map (fun r => r.video_id) →
        findRow t' k = findRow [⟨"v", "A", "c", none, "d", "q", 0⟩] k) :=
  ⟨by decide, by simp [uniqueKeys, keysOf],
    load_csv_upsert_semantics (fun _ => some "TS") 5 _ _ (by decide)
      (by simp [uniqueKeys, keysOf])⟩

/-- C4 counterexample (negation of the claim): there is no batch containing
two records with the same `video_id` for which the Sink Writer's merge
completes without error, under any dialect and any prior table state. -/
theorem sink_recovers_duplicates_counterexample :
    ¬ ∃ (p : String → Option String) (dialect : String) (now : Nat)
        (batch : List RawRec) (table : Table) (k : String) (t' : Table),
      2 ≤ (batch.filter (fun r => r.video_id == k)).length ∧
      load_csv p dialect now batch table = Except.ok t' ∧
      countKey t' k = 1 := by
  rintro ⟨p, d, now, batch, table, k, t', hdup, hok, -⟩
  obtain ⟨e, he⟩ := load_csv_error_of_dup p d now batch table
    (not_nodup_of_two_filter batch k hdup)
  rw [hok] at he
  exact absurd he (by simp)

/-- C4 (amended): a batch containing two records with the same `video_id`
always makes `load_csv` raise, for every dialect: PostgreSQL rejects the
`ON CONFLICT DO UPDATE` statement (cardinality violation), and the
plain-append fallback violates the table's `video_id` primary key; the
transaction rolls back, so in-batch duplication is not recoverable at the
Sink. -/
theorem load_csv_dup_key_raises (p : String → Option String) (dialect : String)
    (now : Nat) (batch : List RawRec) (table : Table) (k : String)
    (h : 2 ≤ (batch.filter (fun r => r.video_id == k)).length) :
    ∃ e, load_csv p dialect now batch table = Except.error e :=
  load_csv_error_of_dup p dialect now batch table (not_nodup_of_two_filter batch k h)

/-- C4 witness. -/
theorem load_csv_dup_key_raises_witness :
    2 ≤ (([⟨"v", "A", "c", "ts", "d", "q"⟩, ⟨"v", "B", "c", "ts", "d", "q"⟩] :
      List RawRec).filter (fun r => r.video_id == "v")).length ∧
    ∃ e, load_csv (fun _ => none) "postgresql" 0
      [⟨"v", "A", "c", "ts", "d", "q"⟩, ⟨"v", "B", "c", "ts", "d", "q"⟩] []
      = Except.error e :=
  ⟨by decide, load_csv_dup_key_raises (fun _ => none) "postgresql" 0 _ [] "v" (by decide)⟩

/-- C7: a record whose `published_at` the timestamp parser rejects is still
loaded — the batch succeeds, no row is dropped, and the destination row for
that record carries a null `published_at`. -/
theorem malformed_published_at_null (p : String → Option String) (dialect : String)
    (now : Nat) (batch : List RawRec) (rr : RawRec)
    (hmem : rr ∈ batch) (hmal : p rr.published_at = none)
    (hnd : (batch.map (fun r => r.video_id)).Nodup) :
    ∃ t', load_csv p dialect now batch [] = Except.ok t' ∧
      t'.length = batch.length ∧
      ∃ row, findRow t' rr.video_id = some row ∧ row.published_at = none := by
  have hkeys := coerceBatch_keys p batch
  have hnd2 : ((coerceBatch p batch).map (fun r => r.video_id)).Nodup := by
    rw [hkeys]; exact hnd
  have hmem2 : coerceRec p rr ∈ coerceBatch p batch := List.mem_map_of_mem _ hmem
  by_cases hd : dialect = "postgresql"
  · obtain ⟨t', hok, hu, hfind, hother, hlen⟩ :=
      mergeRows_spec now (coerceBatch p batch) [] [] hnd2 (by simp)
        (by simp [uniqueKeys, keysOf])
    refine ⟨t', by rw [load_csv, if_pos hd]; exact hok, ?_, ?_⟩
    · rw [hlen]
      have : (coerceBatch p batch).countP
          (fun r => !(keyPresent ([] : Table) r.video_id)) = (coerceBatch p batch).length :=
        List.countP_eq_length.2 (fun x _ => rfl)
      rw [this]
      simp [coerceBatch]
    · refine ⟨insertRow now (coerceRec p rr), (hfind _ hmem2).1 rfl, ?_⟩
      show p rr.published_at = none
      exact hmal
  · have happ : appendRows now (coerceBatch p batch) []
        = .ok ([] ++ (coerceBatch p batch).map (insertRow now)) :=
      appendRows_ok now (coerceBatch p batch) [] hnd2 (by simp [keysOf])
    refine ⟨(coerceBatch p batch).map (insertRow now),
      by rw [load_csv, if_neg hd]; simpa using happ, ?_, ?_⟩
    · simp [coerceBatch]
    · refine ⟨insertRow now (coerceRec p rr), findRow_map_insert now _ _ hnd2 hmem2, ?_⟩
      show p rr.published_at = none
      exact hmal

/-- C7 witness. -/
theorem malformed_published_at_null_witness :
    (⟨"v", "A", "c", "not a date", "d", "q"⟩ : RawRec)
      ∈ ([⟨"v", "A", "c", "not a date", "d", "q"⟩] : List RawRec) ∧
    (fun _ => (none : Option String)) "not a date" = none ∧
    (([⟨"v", "A", "c", "not a date", "d", "q"⟩] : List RawRec).map
      (fun r => r.video_id)).Nodup ∧
    ∃ t', load_csv (fun _ => none) "postgresql" 3
        [⟨"v", "A", "c", "not a date", "d", "q"⟩] [] = Except.ok t' ∧
      t'.length = ([⟨"v", "A", "c", "not a date", "d", "q"⟩] : List RawRec).length ∧
      ∃ row, findRow t' "v" = some row ∧ row.published_at = none :=
  ⟨List.mem_cons_self _ _, rfl, by decide,
    malformed_published_at_null (fun _ => none) "postgresql" 3
      [⟨"v", "A", "c", "not a date", "d", "q"⟩] _ (List.mem_cons_self _ _) rfl (by decide)⟩

/-- C9: with a usable database URL, a missing or empty `processed_paths`
handoff makes `run_load` raise `ValueError` before any database action
(no connect, no DDL, no load) — it is never an empty success. -/
theorem run_load_empty_paths (readCsv : String → List RawRec)
    (p : String → Option String) (dialect : String) (now : Nat)
    (dbUrl : Option String) (pulled : Option (List String)) (db : Option Table)
    (h1 : truthyStr dbUrl = true) (h2 : pulled = none ∨ pulled = some []) :
    run_load readCsv p dialect now dbUrl pulled db = ([], Except.error RunErr.noPaths) := by
  rcases h2 with h2 | h2 <;> subst h2 <;> simp [run_load, h1, pulledFalsy]

/-- C9 witness. -/
theorem run_load_empty_paths_witness :
    truthyStr (some "postgresql://db/yt") = true ∧
    ((none : Option (List String)) = none ∨ (none : Option (List String)) = some []) ∧
    run_load (fun _ => []) (fun _ => none) "postgresql" 0 (some "postgresql://db/yt")
      none none = ([], Except.error RunErr.noPaths) :=
  ⟨by decide, Or.inl rfl,
    run_load_empty_paths (fun _ => []) (fun _ => none) "postgresql" 0
      (some "postgresql://db/yt") none none (by decide) (Or.inl rfl)⟩

/-! ## Fetcher lemmas and claims -/

theorem fetchLoop_stop {α : Type} (q : String) (maxTotal : Int) (delay : ℚ)
    (attempts : List (Attempt α)) (tok : Option String) (collected : List α)
    (h : ¬ ((collected.length : Int) < maxTotal)) :
    fetchLoop q maxTotal delay attempts tok collected = ⟨collected, [], [], true⟩ := by
  rw [fetchLoop.eq_def]
  dsimp only
  rw [if_neg h]

theorem fetchLoop_nil {α : Type} (q : String) (maxTotal : Int) (delay : ℚ)
    (tok : Option String) (collected : List α)
    (h : (collected.length : Int) < maxTotal) :
    fetchLoop q maxTotal delay [] tok collected = ⟨collected, [], [], false⟩ := by
  rw [fetchLoop.eq_def]
  dsimp only
  rw [if_pos h]

theorem fetchLoop_cons_err {α : Type} (q : String) (maxTotal : Int) (delay : ℚ)
    (rest : List (Attempt α)) (tok : Option String) (collected : List α)
    (h : (collected.length : Int) < maxTotal) :
    fetchLoop q maxTotal delay (.err :: rest) tok collected
      = ⟨(fetchLoop q maxTotal delay rest tok collected).collected,
         ⟨q, tok, min DEFAULT_MAX_RESULTS_PER_QUERY (maxTotal - collected.length)⟩
           :: (fetchLoop q maxTotal delay rest tok collected).requests,
         ERROR_COOLDOWN_SECONDS :: (fetchLoop q maxTotal delay rest tok collected).sleeps,
         (fetchLoop q maxTotal delay rest tok collected).finished⟩ := by
  rw [fetchLoop.eq_def]
  dsimp only
  rw [if_pos h]

theorem fetchLoop_cons_ok_empty {α : Type} (q : String) (maxTotal : Int) (delay : ℚ)
    (resp : Response α) (rest : List (Attempt α)) (tok : Option String) (collected : List α)
    (h : (collected.length : Int) < maxTotal) (hi : resp.items.isEmpty = true) :
    fetchLoop q maxTotal delay (.ok resp :: rest) tok collected
      = ⟨collected, [⟨q, tok, min DEFAULT_MAX_RESULTS_PER_QUERY (maxTotal - collected.length)⟩],
         [], true⟩ := by
  rw [fetchLoop.eq_def]
  dsimp only
  rw [if_pos h]
  simp [hi]

theorem fetchLoop_cons_ok_notok {α : Type} (q : String) (maxTotal : Int) (delay : ℚ)
    (resp : Response α) (rest : List (Attempt α)) (tok : Option String) (collected : List α)
    (h : (collected.length : Int) < maxTotal) (hi : resp.items.isEmpty = false)
    (ht : tokenFalsy resp.nextPageToken = true) :
    fetchLoop q maxTotal delay (.ok resp :: rest) tok collected
      = ⟨collected ++ resp.items,
         [⟨q, tok, min DEFAULT_MAX_RESULTS_PER_QUERY (maxTotal - collected.length)⟩],
         [], true⟩ := by
  rw [fetchLoop.eq_def]
  dsimp only
  rw [if_pos h]
  simp [hi, ht]

theorem fetchLoop_cons_ok_cont {α : Type} (q : String) (maxTotal : Int) (delay : ℚ)
    (resp : Response α) (rest : List (Attempt α)) (tok : Option String) (collected : List α)
    (h : (collected.length : Int) < maxTotal) (hi : resp.items.isEmpty = false)
    (ht : tokenFalsy resp.nextPageToken = false) :
    fetchLoop q maxTotal delay (.ok resp :: rest) tok collected
      = ⟨(fetchLoop q maxTotal delay rest resp.nextPageToken (collected ++ resp.items)).collected,
         ⟨q, tok, min DEFAULT_MAX_RESULTS_PER_QUERY (maxTotal - collected.length)⟩
           :: (fetchLoop q maxTotal delay rest resp.nextPageToken (collected ++ resp.items)).requests,
         delay :: (fetchLoop q maxTotal delay rest resp.nextPageToken (collected ++ resp.items)).sleeps,
         (fetchLoop q maxTotal delay rest resp.nextPageToken (collected ++ resp.items)).finished⟩ := by
  rw [fetchLoop.eq_def]
  dsimp only
  rw [if_pos h]
  simp [hi, ht]

/-- C10: with an API key provided and `max_total ≤ 0`, the `while` condition
`len(collected) < max_total` is false at entry, so `extract_videos_for_query`
issues no page request, performs no sleep, and returns the empty list. -/
theorem extract_nonpositive_cap {α : Type} (apiKey envKey : Option String) (q : String)
    (maxTotal : Int) (delay : ℚ) (attempts : List (Attempt α))
    (h1 : truthyStr apiKey = true) (h2 : maxTotal ≤ 0) :
    extract_videos_for_query apiKey envKey q maxTotal delay attempts
      = Except.ok (⟨[], [], [], true⟩, ([] : List α)) := by
  have hstop := fetchLoop_stop q maxTotal delay attempts none ([] : List α)
    (by simp only [List.length_nil, Int.natCast_zero]; omega)
  rw [extract_videos_for_query]
  simp [h1, hstop, pySliceTo]

/-- C10 witness. -/
theorem extract_nonpositive_cap_witness :
    truthyStr (some "key") = true ∧ (-3 : Int) ≤ 0 ∧
    extract_videos_for_query (some "key") none "music" (-3) 1
      ([Attempt.err, Attempt.ok ⟨[7], some "t"⟩] : List (Attempt Nat))
      = Except.ok (⟨[], [], [], true⟩, ([] : List Nat)) :=
  ⟨rfl, by decide,
    extract_nonpositive_cap (some "key") none "music" (-3) 1
      [Attempt.err, Attempt.ok ⟨[7], some "t"⟩] rfl (by decide)⟩

/-- C8: with `max_total = 120` and pages of 50/50/20 items (no token after the
third), the Fetcher issues exactly the three requests
`maxResults = 50, 50, 20` (the `min(per-page cap, remaining budget)` rule)
and returns 120 items. -/
theorem fetcher_scenario_kpop_120 :
    (extract_videos_for_query (some "key") none "kpop" 120 defaultSleepBetweenPages
      ([.ok ⟨List.replicate 50 0, some "t1"⟩, .ok ⟨List.replicate 50 1, some "t2"⟩,
        .ok ⟨List.replicate 20 2, none⟩] : List (Attempt Nat))).toOption.map
      (fun pr => (pr.1.requests, pr.2.length))
      = some ([⟨"kpop", none, 50⟩, ⟨"kpop", some "t1", 50⟩, ⟨"kpop", some "t2", 20⟩], 120) := by
  rfl

/-- C6: `k` consecutive `HttpError`s leave the accumulated items, the page
token and the request parameters untouched: the loop issues the same request
`k` more times, sleeps the fixed 60-second cooldown once per error (no
backoff growth, no retry ceiling), never escalates the error, and then
continues exactly as it would have without the errors; the cooldown is
strictly longer than the default inter-page courtesy delay. -/
theorem transient_error_fixed_cooldown {α : Type} (q : String) (maxTotal : Int) (delay : ℚ)
    (k : Nat) (rest : List (Attempt α)) (tok : Option String) (collected : List α)
    (h : (collected.length : Int) < maxTotal) :
    fetchLoop q maxTotal delay (List.replicate k .err ++ rest) tok collected
      = ⟨(fetchLoop q maxTotal delay rest tok collected).collected,
         List.replicate k
             ⟨q, tok, min DEFAULT_MAX_RESULTS_PER_QUERY (maxTotal - collected.length)⟩
           ++ (fetchLoop q maxTotal delay rest tok collected).requests,
         List.replicate k ERROR_COOLDOWN_SECONDS
           ++ (fetchLoop q maxTotal delay rest tok collected).sleeps,
         (fetchLoop q maxTotal delay rest tok collected).finished⟩
      ∧ ERROR_COOLDOWN_SECONDS > defaultSleepBetweenPages := by
  constructor
  · induction k with
    | zero => simp
    | succ n ih =>
      rw [List.replicate_succ, List.cons_append,
        fetchLoop_cons_err q maxTotal delay (List.replicate n Attempt.err ++ rest) tok collected h,
        ih]
      simp [List.replicate_succ]
  · norm_num [ERROR_COOLDOWN_SECONDS, defaultSleepBetweenPages]

/-- C6 witness. -/
theorem transient_error_fixed_cooldown_witness :
    ((([] : List Nat).length : Int) < 1) ∧
    (fetchLoop "q" 1 1 [Attempt.err] none ([] : List Nat)
      = ⟨(fetchLoop "q" 1 1 [] none ([] : List Nat)).collected,
         List.replicate 1
             ⟨"q", none, min DEFAULT_MAX_RESULTS_PER_QUERY (1 - (([] : List Nat).length : Int))⟩
           ++ (fetchLoop "q" 1 1 [] none ([] : List Nat)).requests,
         List.replicate 1 ERROR_COOLDOWN_SECONDS
           ++ (fetchLoop "q" 1 1 [] none ([] : List Nat)).sleeps,
         (fetchLoop "q" 1 1 [] none ([] : List Nat)).finished⟩
      ∧ ERROR_COOLDOWN_SECONDS > defaultSleepBetweenPages) :=
  ⟨by decide,
    by
      have h := transient_error_fixed_cooldown "q" 1 1 1 ([] : List (Attempt Nat)) none
        ([] : List Nat) (by decide)
      simpa using h⟩

/-- C5: having consumed one more successful page response, pagination stops
there — the result no longer depends on any further scripted responses —
exactly when one of the three loop-exit conditions holds: the page is empty,
the response carries no (or an empty) continuation token, or the accumulated
count has reached `max_total`.  In particular an absent token ends pagination
even when the count is still below `max_total`. -/
theorem pagination_stop_iff {α : Type} (q : String) (maxTotal : Int) (delay : ℚ)
    (tok : Option String) (collected : List α) (resp : Response α) :
    (∀ rest rest' : List (Attempt α),
        fetchLoop q maxTotal delay (.ok resp :: rest) tok collected
          = fetchLoop q maxTotal delay (.ok resp :: rest') tok collected)
      ↔ (resp.items = [] ∨ tokenFalsy resp.nextPageToken = true
          ∨ maxTotal ≤ (collected.length : Int) + resp.items.length) := by
  constructor
  · intro hall
    by_contra hnot
    push_neg at hnot
    obtain ⟨hne, htok, hlt⟩ := hnot
    have hi : resp.items.isEmpty = false := by
      cases hitems : resp.items with
      | nil => exact absurd hitems hne
      | cons a l => rfl
    have ht : tokenFalsy resp.nextPageToken = false := by
      cases hb : tokenFalsy resp.nextPageToken
      · rfl
      · exact absurd hb htok
    have hentry : (collected.length : Int) < maxTotal := by
      have : (0 : Int) ≤ resp.items.length := Int.natCast_nonneg _
      omega
    have hentry2 : (((collected ++ resp.items).length : Int) < maxTotal) := by
      rw [List.length_append]
      push_cast
      omega
    have h1 := hall [] [.ok ⟨[], none⟩]
    rw [fetchLoop_cons_ok_cont q maxTotal delay resp [] tok collected hentry hi ht,
      fetchLoop_cons_ok_cont q maxTotal delay resp [.ok ⟨[], none⟩] tok collected hentry hi ht,
      fetchLoop_nil q maxTotal delay resp.nextPageToken (collected ++ resp.items) hentry2,
      fetchLoop_cons_ok_empty q maxTotal delay ⟨[], none⟩ [] resp.nextPageToken
        (collected ++ resp.items) hentry2 rfl] at h1
    simp at h1
  · intro hstop rest rest'
    by_cases hentry : (collected.length : Int) < maxTotal
    · by_cases hie : resp.items.isEmpty = true
      · rw [fetchLoop_cons_ok_empty q maxTotal delay resp rest tok collected hentry hie,
          fetchLoop_cons_ok_empty q maxTotal delay resp rest' tok collected hentry hie]
      · have hie2 : resp.items.isEmpty = false := by
          cases hb : resp.items.isEmpty
          · rfl
          · exact absurd hb hie
        by_cases htf : tokenFalsy resp.nextPageToken = true
        · rw [fetchLoop_cons_ok_notok q maxTotal delay resp rest tok collected hentry hie2 htf,
            fetchLoop_cons_ok_notok q maxTotal delay resp rest' tok collected hentry hie2 htf]
        · have htf2 : tokenFalsy resp.nextPageToken = false := by
            cases hb : tokenFalsy resp.nextPageToken
            · rfl
            · exact absurd hb htf
          have hle : maxTotal ≤ (collected.length : Int) + resp.items.length := by
            rcases hstop with h | h | h
            · exact absurd (by rw [h]; rfl : resp.items.isEmpty = true) (by simp [hie2])
            · exact absurd h htf
            · exact h
          have hnl : ¬ (((collected ++ resp.items).length : Int) < maxTotal) := by
            rw [List.length_append]
            push_cast
            omega
          rw [fetchLoop_cons_ok_cont q maxTotal delay resp rest tok collected hentry hie2 htf2,
            fetchLoop_cons_ok_cont q maxTotal delay resp rest' tok collected hentry hie2 htf2,
            fetchLoop_stop q maxTotal delay rest resp.nextPageToken (collected ++ resp.items) hnl,
            fetchLoop_stop q maxTotal delay rest' resp.nextPageToken (collected ++ resp.items) hnl]
    · rw [fetchLoop_stop q maxTotal delay (.ok resp :: rest) tok collected hentry,
        fetchLoop_stop q maxTotal delay (.ok resp :: rest') tok collected hentry]

/-- Length invariant of the pagination loop against an honest server: the
loop collects at most everything the server has, and it either drains the
server completely or stops only once the accumulated count has reached
`max_total`. -/
theorem fetchLoop_honest {α : Type} (q : String) (maxTotal : Int) (delay : ℚ) :
    ∀ (pages : List (List α)) (tok : Option String) (collected : List α),
    (∀ pg ∈ pages, pg ≠ []) →
    (fetchLoop q maxTotal delay (honestScript pages) tok collected).collected.length
        ≤ collected.length + pages.flatten.length
    ∧ ((fetchLoop q maxTotal delay (honestScript pages) tok collected).collected.length
          = collected.length + pages.flatten.length
        ∨ maxTotal
            ≤ ((fetchLoop q maxTotal delay (honestScript pages) tok collected).collected.length
                : Int)) := by
  intro pages
  induction pages with
  | nil =>
    intro tok collected h
    rw [show honestScript ([] : List (List α)) = [.ok ⟨[], none⟩] from rfl]
    by_cases hentry : (collected.length : Int) < maxTotal
    · rw [fetchLoop_cons_ok_empty q maxTotal delay ⟨[], none⟩ [] tok collected hentry rfl]
      simp
    · rw [fetchLoop_stop q maxTotal delay [.ok ⟨[], none⟩] tok collected hentry]
      refine ⟨by simp, Or.inr ?_⟩
      simpa using hentry
  | cons pg rest ih =>
    intro tok collected h
    by_cases hentry : (collected.length : Int) < maxTotal
    · have hpg : pg ≠ [] := h pg (List.mem_cons_self pg rest)
      have hie : pg.isEmpty = false := by
        cases hp2 : pg with
        | nil => exact absurd hp2 hpg
        | cons a l => rfl
      cases rest with
      | nil =>
        rw [show honestScript [pg] = [.ok ⟨pg, none⟩] from rfl]
        rw [fetchLoop_cons_ok_notok q maxTotal delay ⟨pg, none⟩ [] tok collected hentry hie rfl]
        simp
      | cons pg2 rs =>
        rw [show honestScript (pg :: pg2 :: rs)
            = .ok ⟨pg, some "token"⟩ :: honestScript (pg2 :: rs) from rfl]
        rw [fetchLoop_cons_ok_cont q maxTotal delay ⟨pg, some "token"⟩
          (honestScript (pg2 :: rs)) tok collected hentry hie rfl]
        have hrec := ih (some "token") (collected ++ pg)
          (fun x hx => h x (List.mem_cons_of_mem _ hx))
        dsimp only
        have hflat : ((pg :: pg2 :: rs).flatten).length
            = pg.length + ((pg2 :: rs).flatten).length := by
          simp
        have h1 := hrec.1
        rw [List.length_append] at h1
        rcases hrec.2 with h2 | h2
        · rw [List.length_append] at h2
          constructor
          · omega
          · left
            omega
        · constructor
          · omega
          · right
            exact h2
    · rw [fetchLoop_stop q maxTotal delay (honestScript (pg :: rest)) tok collected hentry]
      refine ⟨by simp, Or.inr ?_⟩
      simpa using hentry

/-- C3: against an honest server holding `pages.flatten` available items
(every served page nonempty, token present exactly while items remain), the
Fetcher returns exactly `min max_total (total available)` items, for every
query, nonnegative `max_total` and page partition — even when a page
overshoots the remaining budget, thanks to the final `collected[:max_total]`
truncation. -/
theorem fetcher_returns_min {α : Type} (apiKey envKey : Option String) (q : String)
    (delay : ℚ) (maxTotal : Int) (pages : List (List α))
    (h0 : truthyStr apiKey = true) (h1 : 0 ≤ maxTotal) (h2 : ∀ pg ∈ pages, pg ≠ []) :
    ∃ r out, extract_videos_for_query apiKey envKey q maxTotal delay (honestScript pages)
        = Except.ok (r, out) ∧ out.length = min maxTotal.toNat pages.flatten.length := by
  refine ⟨fetchLoop q maxTotal delay (honestScript pages) none [],
    pySliceTo (fetchLoop q maxTotal delay (honestScript pages) none []).collected maxTotal,
    ?_, ?_⟩
  · rw [extract_videos_for_query]
    simp [h0]
  · have hmain := fetchLoop_honest q maxTotal delay pages none [] h2
    rw [pySliceTo, if_neg (by omega : ¬ (maxTotal < 0)), List.length_take]
    simp only [List.length_nil, Nat.zero_add] at hmain
    rcases hmain.2 with he | hge
    · rw [he]
    · have hle := hmain.1
      have h3 : maxTotal.toNat
          ≤ (fetchLoop q maxTotal delay (honestScript pages) none []).collected.length := by
        omega
      have h4 : maxTotal.toNat ≤ pages.flatten.length := by
        omega
      rw [Nat.min_eq_left h3, Nat.min_eq_left h4]

/-- C3 witness. -/
theorem fetcher_returns_min_witness :
    truthyStr (some "key") = true ∧ (0 : Int) ≤ 2 ∧
    (∀ pg ∈ ([[0], [1, 2]] : List (List Nat)), pg ≠ []) ∧
    ∃ r out, extract_videos_for_query (some "key") none "music" 2 1
        (honestScript ([[0], [1, 2]] : List (List Nat))) = Except.ok (r, out) ∧
      out.length = min (2 : Int).toNat ([[0], [1, 2]] : List (List Nat)).flatten.length :=
  ⟨rfl, by decide, by decide,
    fetcher_returns_min (some "key") none "music" 1 2 [[0], [1, 2]] rfl (by decide) (by decide)⟩

end YoutubeETL
